import Mathlib

/-!
Verification of the Paume_ quiz application's question-management logic.

The development shallowly embeds the Python sources:
  * `questions_loader.py` — catalog loading (`load_questions_by_category`,
    `_parse_question_file`) and the `QuestionManager` class;
  * `image_button.py` — the `ImageButton` visual-state machine;
  * `main.py` — the `MainWindow` tile grid (`_create_all_buttons`,
    `_refresh_buttons`, `_on_button_click`).

Python dictionaries are embedded as association lists (insertion order
preserved, lookup finds the first matching key), Python sets as lists used
only through membership, `random.choice` as selection by an arbitrary
index parameter, and `random.shuffle` as an arbitrary permutation-producing
function parameter. The filesystem read by the loader is embedded as an
explicit `QuestionsFS` structure giving file contents as strings.
-/

/-- A `Dict[str, Dict[str, List[str]]]` catalog, as produced by
`load_questions_by_category` (questions_loader.py line 39). -/
abbrev Catalog := List (String × List (String × List String))

/-- State of `QuestionManager` (questions_loader.py lines 108-116):
the loaded catalog and the set of already-asked questions. -/
structure QuestionManager where
  all_questions : Catalog
  used_questions : List String
deriving Repr, DecidableEq

/-- Embedding of `QuestionManager.get_random_question`
(questions_loader.py lines 118-145). `random.choice(available)` is
embedded as indexing by `k % available.length` for an arbitrary `k`;
the method's mutation of `self.used_questions` is returned as the second
component. -/
def get_random_question (qm : QuestionManager) (category domain : String)
    (k : Nat) : Option String × QuestionManager :=
  match qm.all_questions.lookup category with
  | none => (none, qm)
  | some domains =>
    match domains.lookup domain with
    | none => (none, qm)
    | some qs =>
      let available := qs.filter (fun q => !qm.used_questions.contains q)
      if available.isEmpty then (none, qm)
      else
        let question := available.getD (k % available.length) ""
        (some question, { qm with used_questions := question :: qm.used_questions })

/-- Embedding of `QuestionManager.get_domains`
(questions_loader.py lines 147-151). -/
def get_domains (qm : QuestionManager) (category : String) : List String :=
  match qm.all_questions.lookup category with
  | none => []
  | some domains => domains.map Prod.fst

/-- Embedding of `QuestionManager.get_domain_count`
(questions_loader.py lines 153-159). -/
def get_domain_count (qm : QuestionManager) (category domain : String) : Nat :=
  match qm.all_questions.lookup category with
  | none => 0
  | some domains =>
    match domains.lookup domain with
    | none => 0
    | some qs => qs.length

/-- Embedding of `QuestionManager.get_remaining_count`
(questions_loader.py lines 161-170). -/
def get_remaining_count (qm : QuestionManager) (category domain : String) : Nat :=
  match qm.all_questions.lookup category with
  | none => 0
  | some domains =>
    match domains.lookup domain with
    | none => 0
    | some qs => (qs.filter (fun q => !qm.used_questions.contains q)).length

/-- Boolean membership test `list.contains` agrees with `∈`. -/
theorem contains_iff_mem (l : List String) (a : String) :
    l.contains a = true ↔ a ∈ l := List.elem_iff

/-- An element picked by `getD` with a modular index belongs to the
(nonempty) list, as `random.choice` guarantees. -/
theorem getD_mod_mem (l : List String) (k : Nat) (d : String) (h : ¬ l.isEmpty) :
    l.getD (k % l.length) d ∈ l := by
  have hlen : 0 < l.length := by
    cases l with
    | nil => simp [List.isEmpty] at h
    | cons a t => simp
  have hk : k % l.length < l.length := Nat.mod_lt _ hlen
  have heq : l.getD (k % l.length) d = l[k % l.length] := by
    simp [List.getD, List.getElem?_eq_getElem hk]
  rw [heq]
  exact List.getElem_mem hk

/-- C1. `get_random_question` returns `None` exactly when the category is
not a key of the catalog, or the domain is not a key of the category's
dictionary, or every question of that domain is already used; otherwise it
returns a member of the domain's list that was not yet used. -/
theorem C1_get_random_question_none_iff (qm : QuestionManager)
    (category domain : String) (k : Nat) :
    ((get_random_question qm category domain k).1 = none ↔
      qm.all_questions.lookup category = none ∨
      (∃ ds, qm.all_questions.lookup category = some ds ∧
        ds.lookup domain = none) ∨
      (∃ ds qs, qm.all_questions.lookup category = some ds ∧
        ds.lookup domain = some qs ∧ ∀ q ∈ qs, q ∈ qm.used_questions)) ∧
    (∀ q, (get_random_question qm category domain k).1 = some q →
      (∃ ds qs, qm.all_questions.lookup category = some ds ∧
        ds.lookup domain = some qs ∧ q ∈ qs) ∧ q ∉ qm.used_questions) := by
  cases hc : qm.all_questions.lookup category with
  | none =>
    constructor
    · exact ⟨fun _ => Or.inl rfl, fun _ => by simp [get_random_question, hc]⟩
    · intro q hq
      rw [show (get_random_question qm category domain k).1 = none by
        simp [get_random_question, hc]] at hq
      cases hq
  | some ds =>
    cases hd : ds.lookup domain with
    | none =>
      constructor
      · refine ⟨fun _ => Or.inr (Or.inl ⟨ds, rfl, hd⟩), fun _ => ?_⟩
        simp [get_random_question, hc, hd]
      · intro q hq
        rw [show (get_random_question qm category domain k).1 = none by
          simp [get_random_question, hc, hd]] at hq
        cases hq
    | some qs =>
      by_cases hav : (qs.filter (fun q => !qm.used_questions.contains q)).isEmpty = true
      · have hall : ∀ q ∈ qs, q ∈ qm.used_questions := by
          intro q hq
          by_contra hnot
          have hmem : q ∈ qs.filter (fun q => !qm.used_questions.contains q) := by
            rw [List.mem_filter]
            refine ⟨hq, ?_⟩
            rw [Bool.not_eq_true']
            rw [← Bool.not_eq_true]
            intro hcon
            exact hnot ((contains_iff_mem _ _).mp hcon)
          rw [List.isEmpty_iff.mp hav] at hmem
          cases hmem
        have hres : (get_random_question qm category domain k).1 = none := by
          simp only [get_random_question, hc, hd]
          rw [if_pos hav]
        constructor
        · exact ⟨fun _ => Or.inr (Or.inr ⟨ds, qs, rfl, hd, hall⟩), fun _ => hres⟩
        · intro q hq
          rw [hres] at hq
          cases hq
      · have hres : (get_random_question qm category domain k).1 =
            some ((qs.filter (fun q => !qm.used_questions.contains q)).getD
              (k % (qs.filter (fun q => !qm.used_questions.contains q)).length) "") := by
          simp only [get_random_question, hc, hd]
          rw [if_neg hav]
        have hmem := getD_mod_mem (qs.filter (fun q => !qm.used_questions.contains q)) k "" hav
        have hfil := List.mem_filter.mp hmem
        have hfresh : (qs.filter (fun q => !qm.used_questions.contains q)).getD
            (k % (qs.filter (fun q => !qm.used_questions.contains q)).length) "" ∉
            qm.used_questions := by
          intro hin
          have hcon := hfil.2
          rw [Bool.not_eq_true'] at hcon
          rw [(contains_iff_mem _ _).mpr hin] at hcon
          cases hcon
        constructor
        · constructor
          · intro h
            rw [hres] at h
            cases h
          · rintro (h | ⟨ds', hds', hnone⟩ | ⟨ds', qs', hds', hsome, hall⟩)
            · cases h
            · obtain rfl : ds = ds' := by injection hds'
              rw [hd] at hnone
              cases hnone
            · obtain rfl : ds = ds' := by injection hds'
              rw [hd] at hsome
              obtain rfl : qs = qs' := by injection hsome
              exact absurd (hall _ hfil.1) hfresh
        · intro q hq
          rw [hres] at hq
          injection hq with hq
          subst hq
          exact ⟨⟨ds, qs, rfl, hd, hfil.1⟩, hfresh⟩

/-- Concrete instantiation of C1: on a one-question catalog with nothing
used, the call returns the question and the question was fresh. -/
theorem C1_witness :
    (∀ q, (get_random_question ⟨[("user1", [("culture", ["Q1"])])], []⟩
        "user1" "culture" 0).1 = some q →
      (∃ ds qs,
        List.lookup "user1" [("user1", [("culture", ["Q1"])])] = some ds ∧
        ds.lookup "culture" = some qs ∧ q ∈ qs) ∧ q ∉ ([] : List String)) :=
  (C1_get_random_question_none_iff ⟨[("user1", [("culture", ["Q1"])])], []⟩
    "user1" "culture" 0).2

/-- Structural behaviour of one `get_random_question` call: either it
returns `none` and leaves the manager untouched, or it returns a fresh
question of the queried domain and pushes it onto the used set. -/
theorem grq_step (qm : QuestionManager) (c d : String) (k : Nat) :
    ((get_random_question qm c d k).1 = none ∧
      (get_random_question qm c d k).2 = qm) ∨
    (∃ q, (get_random_question qm c d k).1 = some q ∧ q ∉ qm.used_questions ∧
      (∃ ds qs, qm.all_questions.lookup c = some ds ∧
        ds.lookup d = some qs ∧ q ∈ qs) ∧
      (get_random_question qm c d k).2 =
        { qm with used_questions := q :: qm.used_questions }) := by
  cases hc : qm.all_questions.lookup c with
  | none => exact Or.inl ⟨by simp [get_random_question, hc], by simp [get_random_question, hc]⟩
  | some ds =>
    cases hd : ds.lookup d with
    | none =>
      exact Or.inl ⟨by simp [get_random_question, hc, hd], by simp [get_random_question, hc, hd]⟩
    | some qs =>
      by_cases hav : (qs.filter (fun q => !qm.used_questions.contains q)).isEmpty = true
      · refine Or.inl ⟨?_, ?_⟩ <;>
        · simp only [get_random_question, hc, hd]
          rw [if_pos hav]
      · have hmem := getD_mod_mem (qs.filter (fun q => !qm.used_questions.contains q)) k "" hav
        have hfil := List.mem_filter.mp hmem
        have hfresh : (qs.filter (fun q => !qm.used_questions.contains q)).getD
            (k % (qs.filter (fun q => !qm.used_questions.contains q)).length) "" ∉
            qm.used_questions := by
          intro hin
          have hcon := hfil.2
          rw [Bool.not_eq_true'] at hcon
          rw [(contains_iff_mem _ _).mpr hin] at hcon
          cases hcon
        refine Or.inr ⟨(qs.filter (fun q => !qm.used_questions.contains q)).getD
          (k % (qs.filter (fun q => !qm.used_questions.contains q)).length) "",
          ?_, hfresh, ⟨ds, qs, rfl, hd, hfil.1⟩, ?_⟩ <;>
        · simp only [get_random_question, hc, hd]
          rw [if_neg hav]

/-- A successful call records the returned question as used. -/
theorem grq_some_mem_used (qm : QuestionManager) (c d : String) (k : Nat)
    (q : String) (h : (get_random_question qm c d k).1 = some q) :
    q ∈ (get_random_question qm c d k).2.used_questions := by
  rcases grq_step qm c d k with ⟨hn, _⟩ | ⟨q', hs, _, _, hst⟩
  · rw [hn] at h; cases h
  · rw [hs] at h
    injection h with h
    subst h
    rw [hst]
    exact List.mem_cons_self _ _

/-- The used set never loses elements across a call. -/
theorem grq_used_mono (qm : QuestionManager) (c d : String) (k : Nat)
    (q : String) (h : q ∈ qm.used_questions) :
    q ∈ (get_random_question qm c d k).2.used_questions := by
  rcases grq_step qm c d k with ⟨_, hst⟩ | ⟨q', _, _, _, hst⟩ <;> rw [hst]
  · exact h
  · exact List.mem_cons_of_mem _ h

/-- A question already in the used set is never returned. -/
theorem grq_used_not_returned (qm : QuestionManager) (c d : String) (k : Nat)
    (q : String) (h : q ∈ qm.used_questions) :
    (get_random_question qm c d k).1 ≠ some q := by
  rcases grq_step qm c d k with ⟨hn, _⟩ | ⟨q', hs, hfresh, _, _⟩
  · rw [hn]; intro hcon; cases hcon
  · rw [hs]
    intro hcon
    injection hcon with hcon
    subst hcon
    exact hfresh h

/-- A sequence of `get_random_question` calls on one manager, each call
given by its `(category, domain)` arguments plus the random index;
threading the state exactly as repeated method calls on `self` do. -/
def run_calls : QuestionManager → List (String × String × Nat) → List (Option String)
  | _, [] => []
  | qm, (c, d, k) :: rest =>
    (get_random_question qm c d k).1 :: run_calls (get_random_question qm c d k).2 rest

/-- Once a question is in the used set it is never produced by any later
call of the sequence. -/
theorem run_calls_never_used (calls : List (String × String × Nat)) :
    ∀ (qm : QuestionManager) (q : String), q ∈ qm.used_questions →
      ∀ n, (run_calls qm calls).get? n ≠ some (some q) := by
  induction calls with
  | nil => intro qm q _ n h; cases h
  | cons call rest ih =>
    intro qm q hq n
    obtain ⟨c, d, k⟩ := call
    cases n with
    | zero =>
      intro h
      simp only [run_calls, List.get?] at h
      injection h with h
      exact grq_used_not_returned qm c d k q hq h
    | succ n =>
      simp only [run_calls, List.get?]
      exact ih (get_random_question qm c d k).2 q (grq_used_mono qm c d k q hq) n

/-- C2. Across any sequence of calls on one `QuestionManager`, a question
returned by some call is never returned again by a later call. -/
theorem C2_no_question_returned_twice (calls : List (String × String × Nat))
    (qm : QuestionManager) (i j : Nat) (q : String) (hij : i < j)
    (hi : (run_calls qm calls).get? i = some (some q)) :
    (run_calls qm calls).get? j ≠ some (some q) := by
  induction calls generalizing qm i j with
  | nil => cases hi
  | cons call rest ih =>
    obtain ⟨c, d, k⟩ := call
    cases i with
    | zero =>
      simp only [run_calls, List.get?] at hi
      injection hi with hi
      obtain ⟨j', rfl⟩ : ∃ j', j = j' + 1 := ⟨j - 1, by omega⟩
      simp only [run_calls, List.get?]
      exact run_calls_never_used rest (get_random_question qm c d k).2 q
        (grq_some_mem_used qm c d k q hi) j'
    | succ i =>
      obtain ⟨j', rfl⟩ : ∃ j', j = j' + 1 := ⟨j - 1, by omega⟩
      simp only [run_calls, List.get?] at hi ⊢
      exact ih (get_random_question qm c d k).2 i j' (by omega) hi

/-- Concrete instantiation of C2: on a one-question catalog, after the
first call returns the question, the second call does not return it. -/
theorem C2_witness :
    (run_calls ⟨[("user1", [("culture", ["Q1"])])], []⟩
      [("user1", "culture", 0), ("user1", "culture", 0)]).get? 1 ≠
      some (some "Q1") :=
  C2_no_question_returned_twice _ _ 0 1 "Q1" (by decide) (by decide)

/-- Negated boolean membership test agrees with `∉`. -/
theorem not_contains_iff (l : List String) (a : String) :
    (!l.contains a) = true ↔ a ∉ l := by
  cases hc : l.contains a with
  | false =>
    simp only [hc, Bool.not_false]
    exact iff_of_true trivial
      (fun hmem => by rw [(contains_iff_mem _ _).mpr hmem] at hc; cases hc)
  | true =>
    simp only [hc, Bool.not_true]
    exact iff_of_false (fun h => by cases h)
      (fun hno => hno ((contains_iff_mem _ _).mp hc))

/-- A pointwise-stronger predicate counts at most as many elements. -/
theorem countP_le_of_imp (l : List String) (p p' : String → Bool)
    (h : ∀ x ∈ l, p' x = true → p x = true) : l.countP p' ≤ l.countP p :=
  List.countP_mono_left h

/-- A pointwise-stronger predicate counts strictly fewer elements when
some list element separates the two predicates. -/
theorem countP_lt_of_witness (l : List String) (p p' : String → Bool)
    (hmono : ∀ x ∈ l, p' x = true → p x = true)
    (x : String) (hx : x ∈ l) (hpx : p x = true) (hp'x : p' x = false) :
    l.countP p' < l.countP p := by
  induction l with
  | nil => cases hx
  | cons a t ih =>
    rw [List.countP_cons, List.countP_cons]
    rcases List.mem_cons.mp hx with rfl | hxt
    · rw [hpx, hp'x, if_pos rfl, if_neg (by decide)]
      have hle := countP_le_of_imp t p p'
        (fun y hy => hmono y (List.mem_cons_of_mem _ hy))
      omega
    · have ht := ih (fun y hy => hmono y (List.mem_cons_of_mem _ hy)) hxt
      have hif : (if p' a = true then 1 else 0) ≤ (if p a = true then 1 else 0) := by
        by_cases hpa : p' a = true
        · rw [if_pos hpa, if_pos (hmono a (List.mem_cons_self a t) hpa)]
        · rw [if_neg hpa]
          omega
      omega

/-- The filter predicate of `get_remaining_count` only gets harder to
satisfy when the used set grows by one question. -/
theorem remaining_pred_mono (used : List String) (q : String) :
    ∀ x : String, (!(q :: used).contains x) = true → (!used.contains x) = true := by
  intro x hx
  rw [not_contains_iff] at hx ⊢
  exact fun hmem => hx (List.mem_cons_of_mem _ hmem)

/-- C10. `get_remaining_count` is bounded by `get_domain_count`, never
increases across a `get_random_question` call (whatever its arguments),
and strictly decreases for the queried pair whenever that call returns a
question rather than `None`. -/
theorem C10_remaining_count_evolution (qm : QuestionManager)
    (category domain category' domain' : String) (k : Nat) :
    get_remaining_count qm category domain ≤ get_domain_count qm category domain ∧
    get_remaining_count (get_random_question qm category' domain' k).2 category domain ≤
      get_remaining_count qm category domain ∧
    (∀ q, (get_random_question qm category' domain' k).1 = some q →
      get_remaining_count (get_random_question qm category' domain' k).2 category' domain' <
        get_remaining_count qm category' domain') := by
  refine ⟨?_, ?_, ?_⟩
  · cases hc : qm.all_questions.lookup category with
    | none => simp [get_remaining_count, get_domain_count, hc]
    | some ds =>
      cases hd : ds.lookup domain with
      | none => simp [get_remaining_count, get_domain_count, hc, hd]
      | some qs =>
        simp only [get_remaining_count, get_domain_count, hc, hd]
        exact List.length_filter_le _ _
  · rcases grq_step qm category' domain' k with ⟨_, hst⟩ | ⟨q, _, _, _, hst⟩
    · rw [hst]
    · rw [hst]
      cases hc : qm.all_questions.lookup category with
      | none => simp [get_remaining_count, hc]
      | some ds =>
        cases hd : ds.lookup domain with
        | none => simp [get_remaining_count, hc, hd]
        | some qs =>
          simp only [get_remaining_count, hc, hd]
          rw [← List.countP_eq_length_filter, ← List.countP_eq_length_filter]
          exact countP_le_of_imp qs _ _
            (fun x _ hx => remaining_pred_mono qm.used_questions q x hx)
  · intro q hq
    rcases grq_step qm category' domain' k with ⟨hn, _⟩ | ⟨q', hs, hfresh, ⟨ds, qs, hc, hd, hqmem⟩, hst⟩
    · rw [hn] at hq; cases hq
    · rw [hs] at hq
      injection hq with hq
      subst hq
      rw [hst]
      simp only [get_remaining_count, hc, hd]
      rw [← List.countP_eq_length_filter, ← List.countP_eq_length_filter]
      refine countP_lt_of_witness qs _ _
        (fun x _ hx => remaining_pred_mono qm.used_questions q' x hx) q' hqmem ?_ ?_
      · exact (not_contains_iff _ _).mpr hfresh
      · have : (q' :: qm.used_questions).contains q' = true :=
          (contains_iff_mem _ _).mpr (List.mem_cons_self _ _)
        rw [this, Bool.not_true]

/-- Concrete instantiation of C10: on a two-question domain with nothing
used, a successful call drops the remaining count from 2 to 1. -/
theorem C10_witness :
    get_remaining_count (get_random_question
        ⟨[("user1", [("culture", ["Q1", "Q2"])])], []⟩ "user1" "culture" 0).2
      "user1" "culture" <
    get_remaining_count ⟨[("user1", [("culture", ["Q1", "Q2"])])], []⟩
      "user1" "culture" :=
  (C10_remaining_count_evolution ⟨[("user1", [("culture", ["Q1", "Q2"])])], []⟩
    "user1" "culture" "user1" "culture" 0).2.2 "Q1" (by decide)

/-- Whitespace as removed by Python `str.strip` on ASCII text: space,
tab, newline, carriage return, vertical tab, form feed. -/
def isPySpace (c : Char) : Bool :=
  c == ' ' || c == '\t' || c == '\n' || c == '\r' ||
  c == Char.ofNat 11 || c == Char.ofNat 12

/-- Leading-whitespace removal, the left half of `q.strip()`. -/
def lstrip (cs : List Char) : List Char := cs.dropWhile isPySpace

/-- Trailing-whitespace removal, the right half of `q.strip()`. -/
def rstrip (cs : List Char) : List Char := (cs.reverse.dropWhile isPySpace).reverse

/-- Python `q.strip()` on the characters of `q`. -/
def pyStrip (cs : List Char) : List Char := rstrip (lstrip cs)

/-- Worker for `pySplit`: scans the text for the leftmost occurrence of
the separator, accumulating the current segment in reverse; `fuel` bounds
the recursion and is chosen so it never runs out. -/
def splitSepAux (sep : List Char) : Nat → List Char → List Char → List (List Char)
  | 0, s, acc => [acc.reverse ++ s]
  | fuel + 1, s, acc =>
    if !sep.isEmpty && sep.isPrefixOf s then
      acc.reverse :: splitSepAux sep fuel (s.drop sep.length) []
    else
      match s with
      | [] => [acc.reverse]
      | c :: rest => splitSepAux sep fuel rest (c :: acc)

/-- Python `content.split(sep)` for a non-empty separator: splits at each
leftmost non-overlapping occurrence, keeping empty segments. -/
def pySplit (sep s : List Char) : List (List Char) :=
  splitSepAux sep (s.length + 1) s []

/-- Embedding of `_parse_question_file` (questions_loader.py lines
92-105), taking the file's text as a value: the segments of the content
split on `"\n\n"` are stripped and the non-empty ones kept, in order.
The `except` branch (unreadable file) yields no questions and is covered
by the filesystem model supplying one content string per readable file. -/
def _parse_question_file (content : String) : List String :=
  (pySplit ['\n', '\n'] content.data).filterMap (fun q =>
    let cleaned := pyStrip q
    if cleaned.isEmpty then none else some (String.mk cleaned))

/-- The filesystem under the questions root, as `load_questions_by_category`
reads it: whether the root and each category folder exist, the contents of
the `*.txt` files directly inside a category folder (the malus/bonus/neutre
case), the sorted subfolder names of a category (the user1/user2 case),
and the contents of the `*.txt` files of each domain subfolder. -/
structure QuestionsFS where
  root_exists : Bool
  category_exists : String → Bool
  flat_files : String → List String
  domain_folders : String → List String
  domain_files : String → String → List String

/-- The fixed category list of `load_questions_by_category`
(questions_loader.py line 62). -/
def category_names : List String := ["user1", "user2", "malus", "bonus", "neutre"]

/-- Embedding of `load_questions_by_category` (questions_loader.py lines
39-89) over the filesystem model: an empty dictionary when the root is
missing, otherwise one entry per category name, each populated from the
category's files, with empty question lists never stored. -/
def load_questions_by_category (fs : QuestionsFS) : Catalog :=
  if !fs.root_exists then []
  else
    category_names.map (fun category =>
      (category,
        if !fs.category_exists category then []
        else if (["malus", "bonus", "neutre"] : List String).contains category then
          let questions := (fs.flat_files category).flatMap _parse_question_file
          if questions.isEmpty then [] else [(category, questions)]
        else
          (fs.domain_folders category).filterMap (fun domain_name =>
            let domain_questions :=
              (fs.domain_files category domain_name).flatMap _parse_question_file
            if domain_questions.isEmpty then none
            else some (domain_name, domain_questions))))

/-- Embedding of `QuestionManager.__init__` (questions_loader.py lines
114-116): load the catalog and start with an empty used set. -/
def QuestionManager.create (fs : QuestionsFS) : QuestionManager :=
  { all_questions := load_questions_by_category fs, used_questions := [] }

/-- A key that is not among an association list's keys has no binding. -/
theorem lookup_eq_none_of_not_mem_keys {β : Type} (m : List (String × β))
    (key : String) (h : key ∉ m.map Prod.fst) : m.lookup key = none := by
  induction m with
  | nil => rfl
  | cons p t ih =>
    obtain ⟨a, b⟩ := p
    simp only [List.map_cons, List.mem_cons, not_or] at h
    have hne : (key == a) = false := by
      rw [beq_eq_false_iff_ne]
      exact h.1
    simp [List.lookup, hne, ih h.2]

/-- A successful association-list lookup returns a bound pair. -/
theorem mem_of_lookup_eq_some {β : Type} (m : List (String × β))
    (key : String) (v : β) (h : m.lookup key = some v) : (key, v) ∈ m := by
  induction m with
  | nil => cases h
  | cons p t ih =>
    obtain ⟨a, b⟩ := p
    cases hk : (key == a) with
    | true =>
      simp only [List.lookup, hk] at h
      injection h with h
      subst h
      have : key = a := eq_of_beq hk
      subst this
      exact List.mem_cons_self _ _
    | false =>
      simp only [List.lookup, hk] at h
      exact List.mem_cons_of_mem _ (ih h)

/-- A key among an association list's keys has a binding. -/
theorem lookup_isSome_of_mem_keys {β : Type} (m : List (String × β))
    (key : String) (h : key ∈ m.map Prod.fst) : ∃ v, m.lookup key = some v := by
  induction m with
  | nil => cases h
  | cons p t ih =>
    obtain ⟨a, b⟩ := p
    cases hk : (key == a) with
    | true => exact ⟨b, by simp [List.lookup, hk]⟩
    | false =>
      simp only [List.map_cons, List.mem_cons] at h
      rcases h with rfl | h
      · rw [beq_self_eq_true] at hk
        cases hk
      · obtain ⟨v, hv⟩ := ih h
        exact ⟨v, by simp [List.lookup, hk, hv]⟩

/-- C6. When the questions root is missing the loader returns the empty
dictionary rather than failing, and a manager built on it — whatever its
used set has become — answers `None`, the empty list and `0` everywhere. -/
theorem C6_missing_root (fs : QuestionsFS) (used : List String)
    (category domain : String) (k : Nat) (h : fs.root_exists = false) :
    load_questions_by_category fs = [] ∧
    (get_random_question ⟨load_questions_by_category fs, used⟩
      category domain k).1 = none ∧
    get_domains ⟨load_questions_by_category fs, used⟩ category = [] ∧
    get_domain_count ⟨load_questions_by_category fs, used⟩ category domain = 0 ∧
    get_remaining_count ⟨load_questions_by_category fs, used⟩ category domain = 0 := by
  have hload : load_questions_by_category fs = [] := by
    simp [load_questions_by_category, h]
  refine ⟨hload, ?_, ?_, ?_, ?_⟩ <;>
    simp [hload, get_random_question, get_domains, get_domain_count,
      get_remaining_count, List.lookup]

/-- Concrete instantiation of C6 on a filesystem with no questions root. -/
theorem C6_witness :
    load_questions_by_category ⟨false, fun _ => false, fun _ => [],
      fun _ => [], fun _ _ => []⟩ = [] ∧
    (get_random_question ⟨load_questions_by_category ⟨false, fun _ => false,
      fun _ => [], fun _ => [], fun _ _ => []⟩, []⟩ "user1" "culture" 0).1 = none ∧
    get_domains ⟨load_questions_by_category ⟨false, fun _ => false, fun _ => [],
      fun _ => [], fun _ _ => []⟩, []⟩ "user1" = [] ∧
    get_domain_count ⟨load_questions_by_category ⟨false, fun _ => false,
      fun _ => [], fun _ => [], fun _ _ => []⟩, []⟩ "user1" "culture" = 0 ∧
    get_remaining_count ⟨load_questions_by_category ⟨false, fun _ => false,
      fun _ => [], fun _ => [], fun _ _ => []⟩, []⟩ "user1" "culture" = 0 :=
  C6_missing_root ⟨false, fun _ => false, fun _ => [], fun _ => [], fun _ _ => []⟩
    [] "user1" "culture" 0 rfl

/-- C5. The loaded catalog's key list is contained in the five category
names (and equals it exactly when the root exists), and a category outside
that set answers `None`, the empty list and `0` on every operation. -/
theorem C5_category_universe (fs : QuestionsFS) (used : List String)
    (category domain : String) (k : Nat) (h : category ∉ category_names) :
    (∀ key ∈ (load_questions_by_category fs).map Prod.fst,
      key ∈ category_names) ∧
    (fs.root_exists = true →
      (load_questions_by_category fs).map Prod.fst = category_names) ∧
    (get_random_question ⟨load_questions_by_category fs, used⟩
      category domain k).1 = none ∧
    get_domains ⟨load_questions_by_category fs, used⟩ category = [] ∧
    get_domain_count ⟨load_questions_by_category fs, used⟩ category domain = 0 ∧
    get_remaining_count ⟨load_questions_by_category fs, used⟩ category domain = 0 := by
  have hkeys : ∀ key ∈ (load_questions_by_category fs).map Prod.fst,
      key ∈ category_names := by
    intro key hkey
    cases hroot : fs.root_exists with
    | false => simp [load_questions_by_category, hroot] at hkey
    | true =>
      simp only [load_questions_by_category, hroot, Bool.not_true,
        List.map_map] at hkey
      simpa using hkey
  have hnone : (load_questions_by_category fs).lookup category = none :=
    lookup_eq_none_of_not_mem_keys _ _ (fun hmem => h (hkeys _ hmem))
  refine ⟨hkeys, ?_, ?_, ?_, ?_, ?_⟩
  · intro hroot
    simp only [load_questions_by_category, hroot, Bool.not_true, List.map_map]
    simp [Function.comp_def]
  · simp [get_random_question, hnone]
  · simp [get_domains, hnone]
  · simp [get_domain_count, hnone]
  · simp [get_remaining_count, hnone]

/-- Concrete instantiation of C5 at the out-of-universe category "score". -/
theorem C5_witness :
    (get_random_question ⟨load_questions_by_category ⟨true, fun _ => false,
      fun _ => [], fun _ => [], fun _ _ => []⟩, []⟩ "score" "culture" 0).1 = none ∧
    get_domains ⟨load_questions_by_category ⟨true, fun _ => false, fun _ => [],
      fun _ => [], fun _ _ => []⟩, []⟩ "score" = [] :=
  ⟨(C5_category_universe ⟨true, fun _ => false, fun _ => [], fun _ => [],
      fun _ _ => []⟩ [] "score" "culture" 0 (by decide)).2.2.1,
   (C5_category_universe ⟨true, fun _ => false, fun _ => [], fun _ => [],
      fun _ _ => []⟩ [] "score" "culture" 0 (by decide)).2.2.2.1⟩

/-- The first character surviving `dropWhile` fails the dropped predicate. -/
theorem dropWhile_head_not (p : Char → Bool) (l : List Char) (c : Char)
    (h : (l.dropWhile p).head? = some c) : p c = false := by
  induction l with
  | nil => cases h
  | cons a t ih =>
    rw [List.dropWhile_cons] at h
    by_cases hp : p a = true
    · rw [if_pos hp] at h
      exact ih h
    · rw [if_neg hp] at h
      injection h with h
      subst h
      exact Bool.eq_false_iff.mpr hp

/-- `dropWhile` keeps the last element when its result is non-empty,
stated through the head of the reversed list. -/
theorem dropWhile_reverse_head (p : Char → Bool) (z : List Char)
    (h : z.dropWhile p ≠ []) :
    (z.dropWhile p).reverse.head? = z.reverse.head? := by
  induction z with
  | nil => simp at h
  | cons a t ih =>
    rw [List.dropWhile_cons] at h ⊢
    by_cases hp : p a = true
    · rw [if_pos hp] at h ⊢
      rw [ih h]
      have ht : t ≠ [] := by
        intro hh
        subst hh
        simp at h
      rw [List.reverse_cons]
      cases hr : t.reverse with
      | nil => exact absurd (List.reverse_eq_nil_iff.mp hr) ht
      | cons b bs => simp
    · rw [if_neg hp]

/-- No leading or trailing whitespace: the first character and the last
character (head of the reverse) are not Python whitespace. -/
def no_edge_space (cs : List Char) : Bool :=
  (match cs.head? with
   | none => true
   | some c => !isPySpace c) &&
  (match cs.reverse.head? with
   | none => true
   | some c => !isPySpace c)

/-- A non-empty `pyStrip` result has no whitespace at either edge. -/
theorem pyStrip_no_edge_space (cs : List Char)
    (h : ¬ (pyStrip cs).isEmpty = true) : no_edge_space (pyStrip cs) = true := by
  have hne : pyStrip cs ≠ [] := by
    intro hh
    rw [hh] at h
    exact h rfl
  have hps : pyStrip cs =
      ((cs.dropWhile isPySpace).reverse.dropWhile isPySpace).reverse := rfl
  have hyne : (cs.dropWhile isPySpace).reverse.dropWhile isPySpace ≠ [] := by
    intro hh
    rw [hps, hh] at hne
    exact hne rfl
  cases hhead : (pyStrip cs).head? with
  | none => exact absurd (List.head?_eq_none_iff.mp hhead) hne
  | some c =>
    cases hlast : (pyStrip cs).reverse.head? with
    | none =>
      exact absurd (List.reverse_eq_nil_iff.mp (List.head?_eq_none_iff.mp hlast)) hne
    | some c' =>
      have h1 : isPySpace c = false := by
        rw [hps] at hhead
        rw [dropWhile_reverse_head isPySpace (cs.dropWhile isPySpace).reverse hyne]
          at hhead
        rw [List.reverse_reverse] at hhead
        exact dropWhile_head_not isPySpace _ c hhead
      have h2 : isPySpace c' = false := by
        rw [hps, List.reverse_reverse] at hlast
        exact dropWhile_head_not isPySpace _ c' hlast
      unfold no_edge_space
      rw [hhead, hlast]
      simp [h1, h2]

/-- Every question the parser emits is non-empty and stripped. -/
theorem parse_qf_invariant (content : String) :
    ∀ q ∈ _parse_question_file content,
      q.data ≠ [] ∧ no_edge_space q.data = true := by
  intro q hq
  simp only [_parse_question_file, List.mem_filterMap] at hq
  obtain ⟨seg, _, hsome⟩ := hq
  by_cases hemp : (pyStrip seg).isEmpty = true
  · rw [if_pos hemp] at hsome
    cases hsome
  · rw [if_neg hemp] at hsome
    injection hsome with hsome
    subst hsome
    refine ⟨?_, pyStrip_no_edge_space seg hemp⟩
    intro hh
    apply hemp
    change pyStrip seg = [] at hh
    rw [hh]
    rfl

/-- Every question collected over a list of files is non-empty and
stripped. -/
theorem flatMap_parse_invariant (files : List String) :
    ∀ q ∈ files.flatMap _parse_question_file,
      q.data ≠ [] ∧ no_edge_space q.data = true := by
  intro q hq
  rw [List.mem_flatMap] at hq
  obtain ⟨f, _, hqf⟩ := hq
  exact parse_qf_invariant f q hqf

/-- C9. Every question stored by the loader is a non-empty string with no
leading or trailing whitespace, every stored domain key maps to a
non-empty question list, and so `get_domains` never lists a domain whose
`get_domain_count` is zero. -/
theorem C9_catalog_invariant (fs : QuestionsFS) (used : List String) :
    (∀ entry ∈ load_questions_by_category fs, ∀ dq ∈ entry.2,
      dq.2 ≠ [] ∧ ∀ q ∈ dq.2, q.data ≠ [] ∧ no_edge_space q.data = true) ∧
    (∀ category,
      ∀ domain ∈ get_domains ⟨load_questions_by_category fs, used⟩ category,
        get_domain_count ⟨load_questions_by_category fs, used⟩
          category domain ≠ 0) := by
  have hmain : ∀ entry ∈ load_questions_by_category fs, ∀ dq ∈ entry.2,
      dq.2 ≠ [] ∧ ∀ q ∈ dq.2, q.data ≠ [] ∧ no_edge_space q.data = true := by
    intro entry hentry dq hdq
    cases hroot : fs.root_exists with
    | false =>
      rw [show load_questions_by_category fs = [] by
        simp [load_questions_by_category, hroot]] at hentry
      cases hentry
    | true =>
      simp only [load_questions_by_category, hroot, Bool.not_true,
        Bool.false_eq_true, if_false] at hentry
      rw [List.mem_map] at hentry
      obtain ⟨category, hcat, rfl⟩ := hentry
      cases hce : fs.category_exists category with
      | false =>
        rw [hce] at hdq
        simp at hdq
      | true =>
        rw [hce] at hdq
        simp only [Bool.not_true, Bool.false_eq_true, if_false] at hdq
        by_cases hmb : ((["malus", "bonus", "neutre"] : List String).contains
            category) = true
        · rw [if_pos hmb] at hdq
          by_cases hqe : ((fs.flat_files category).flatMap
              _parse_question_file).isEmpty = true
          · rw [if_pos hqe] at hdq
            cases hdq
          · rw [if_neg hqe] at hdq
            rcases List.mem_singleton.mp hdq with rfl
            constructor
            · intro hh
              apply hqe
              change (fs.flat_files category).flatMap _parse_question_file = []
                at hh
              rw [hh]
              rfl
            · exact fun q hq => flatMap_parse_invariant _ q hq
        · rw [if_neg hmb] at hdq
          rw [List.mem_filterMap] at hdq
          obtain ⟨dname, _, hsome⟩ := hdq
          by_cases hde : ((fs.domain_files category dname).flatMap
              _parse_question_file).isEmpty = true
          · rw [if_pos hde] at hsome
            cases hsome
          · rw [if_neg hde] at hsome
            injection hsome with hsome
            subst hsome
            constructor
            · intro hh
              apply hde
              change (fs.domain_files category dname).flatMap
                _parse_question_file = [] at hh
              rw [hh]
              rfl
            · exact fun q hq => flatMap_parse_invariant _ q hq
  refine ⟨hmain, ?_⟩
  intro category domain hdom
  cases hc : (load_questions_by_category fs).lookup category with
  | none =>
    rw [show get_domains ⟨load_questions_by_category fs, used⟩ category = [] by
      simp [get_domains, hc]] at hdom
    cases hdom
  | some doms =>
    have hdom' : domain ∈ doms.map Prod.fst := by
      simpa [get_domains, hc] using hdom
    obtain ⟨qs, hqs⟩ := lookup_isSome_of_mem_keys doms domain hdom'
    have hpair := mem_of_lookup_eq_some doms domain qs hqs
    have hcatmem := mem_of_lookup_eq_some _ category doms hc
    have hinv := hmain (category, doms) hcatmem (domain, qs) hpair
    have hcount : get_domain_count ⟨load_questions_by_category fs, used⟩
        category domain = qs.length := by
      simp [get_domain_count, hc, hqs]
    rw [hcount]
    intro hlen
    exact hinv.1 (List.length_eq_zero.mp hlen)

/-- A tiny concrete filesystem: one user1 domain file holding two
blank-line-separated questions with surrounding whitespace. -/
def fs0 : QuestionsFS where
  root_exists := true
  category_exists := fun category => category == "user1"
  flat_files := fun _ => []
  domain_folders := fun category => if category == "user1" then ["culture"] else []
  domain_files := fun category domain_name =>
    if category == "user1" && domain_name == "culture"
    then ["  Q1\n\nQ2  "] else []

/-- Concrete instantiation of C9: the loaded domain "culture" has a
non-zero question count. -/
theorem C9_witness :
    get_domain_count ⟨load_questions_by_category fs0, []⟩ "user1" "culture" ≠ 0 :=
  (C9_catalog_invariant fs0 []).2 "user1" "culture" (by decide)

/-- Visual and interaction state of an `ImageButton`
(image_button.py lines 54-105): the style, the drawn text, the permanent
disabled flag, the mouse-tracking flag, the current visual state and the
Qt widget enabled flag (`setEnabled`). Pixmaps, cursor shape and the tilt
animation only affect rendering and are not modelled. -/
structure ImageButton where
  _style : String
  _text : String
  _is_disabled : Bool
  _mouse_inside : Bool
  _current_state : String
  enabled : Bool
deriving Repr, DecidableEq

/-- A fresh button as built by `ImageButton.__init__`
(image_button.py lines 54-105). -/
def ImageButton.init (style text : String) : ImageButton :=
  { _style := style, _text := text, _is_disabled := false,
    _mouse_inside := false, _current_state := "normal", enabled := true }

/-- `ImageButton._apply_state` (image_button.py lines 222-225). -/
def ImageButton._apply_state (b : ImageButton) (state : String) : ImageButton :=
  { b with _current_state := state }

/-- `ImageButton.setText` override (image_button.py lines 133-136). -/
def ImageButton.setText (b : ImageButton) (text : String) : ImageButton :=
  { b with _text := text }

/-- Qt `setEnabled`, as called by `set_disabled_state` and
`_refresh_buttons`. -/
def ImageButton.setEnabled (b : ImageButton) (value : Bool) : ImageButton :=
  { b with enabled := value }

/-- `ImageButton.set_style` (image_button.py lines 227-236): store the
new style, reload the pixmaps (not modelled) and apply "normal" or
"disabled" according to the permanent disabled flag. -/
def ImageButton.set_style (b : ImageButton) (style : String) : ImageButton :=
  ImageButton._apply_state { b with _style := style }
    (if !b._is_disabled then "normal" else "disabled")

/-- `ImageButton.set_disabled_state` (image_button.py lines 238-244). -/
def ImageButton.set_disabled_state (b : ImageButton) : ImageButton :=
  ImageButton._apply_state
    (ImageButton.setEnabled { b with _is_disabled := true } false) "disabled"

/-- `ImageButton.enterEvent` (image_button.py lines 250-256). -/
def ImageButton.enterEvent (b : ImageButton) : ImageButton :=
  if !b._is_disabled then
    ImageButton._apply_state { b with _mouse_inside := true } "hover"
  else b

/-- `ImageButton.leaveEvent` (image_button.py lines 258-264). -/
def ImageButton.leaveEvent (b : ImageButton) : ImageButton :=
  if !b._is_disabled then
    ImageButton._apply_state { b with _mouse_inside := false } "normal"
  else b

/-- `ImageButton.mousePressEvent` (image_button.py lines 266-271); the
argument records whether the pressed mouse button is the left one. -/
def ImageButton.mousePressEvent (b : ImageButton) (left_button : Bool) :
    ImageButton :=
  if !b._is_disabled && left_button then
    ImageButton._apply_state b "pressed"
  else b

/-- `ImageButton.mouseReleaseEvent` (image_button.py lines 273-282). -/
def ImageButton.mouseReleaseEvent (b : ImageButton) : ImageButton :=
  if !b._is_disabled then
    if b._mouse_inside then ImageButton._apply_state b "hover"
    else ImageButton._apply_state b "normal"
  else b

/-- The operations of image_button.py that can change `_current_state`. -/
inductive ButtonEvent where
  | enter
  | leave
  | press (left_button : Bool)
  | release
  | setStyle (style : String)
  | setDisabled
deriving Repr, DecidableEq

/-- Dispatch one event to its handler. -/
def applyEvent (b : ImageButton) : ButtonEvent → ImageButton
  | ButtonEvent.enter => b.enterEvent
  | ButtonEvent.leave => b.leaveEvent
  | ButtonEvent.press left_button => b.mousePressEvent left_button
  | ButtonEvent.release => b.mouseReleaseEvent
  | ButtonEvent.setStyle style => b.set_style style
  | ButtonEvent.setDisabled => b.set_disabled_state

/-- The four visual states of the glossary. -/
def validState (s : String) : Bool :=
  s == "normal" || s == "hover" || s == "pressed" || s == "disabled"

/-- The initial state "normal" is one of the four valid states. -/
theorem validState_normal : validState "normal" = true := by decide

/-- C7. `_current_state` starts as "normal"; every handler either leaves
it unchanged or writes a value from the four-state set; consequently it
stays in {normal, hover, pressed, disabled} along any event sequence
from a fresh button. -/
theorem C7_button_state_universe (style text : String)
    (events : List ButtonEvent) :
    (ImageButton.init style text)._current_state = "normal" ∧
    (∀ (b : ImageButton) (e : ButtonEvent),
      (applyEvent b e)._current_state = b._current_state ∨
      validState (applyEvent b e)._current_state = true) ∧
    validState ((events.foldl applyEvent
      (ImageButton.init style text))._current_state) = true := by
  have hstep : ∀ (b : ImageButton) (e : ButtonEvent),
      (applyEvent b e)._current_state = b._current_state ∨
      validState (applyEvent b e)._current_state = true := by
    intro b e
    cases e with
    | enter =>
      cases hd : b._is_disabled with
      | true => left; simp [applyEvent, ImageButton.enterEvent, hd]
      | false =>
        right
        rw [show (applyEvent b ButtonEvent.enter)._current_state = "hover" by
          simp [applyEvent, ImageButton.enterEvent, ImageButton._apply_state, hd]]
        decide
    | leave =>
      cases hd : b._is_disabled with
      | true => left; simp [applyEvent, ImageButton.leaveEvent, hd]
      | false =>
        right
        rw [show (applyEvent b ButtonEvent.leave)._current_state = "normal" by
          simp [applyEvent, ImageButton.leaveEvent, ImageButton._apply_state, hd]]
        decide
    | press left_button =>
      cases hd : b._is_disabled with
      | true => left; simp [applyEvent, ImageButton.mousePressEvent, hd]
      | false =>
        cases hl : left_button with
        | false => left; simp [applyEvent, ImageButton.mousePressEvent, hd, hl]
        | true =>
          right
          rw [show (applyEvent b (ButtonEvent.press true))._current_state =
              "pressed" by
            simp [applyEvent, ImageButton.mousePressEvent,
              ImageButton._apply_state, hd]]
          decide
    | release =>
      cases hd : b._is_disabled with
      | true => left; simp [applyEvent, ImageButton.mouseReleaseEvent, hd]
      | false =>
        right
        cases hm : b._mouse_inside with
        | true =>
          rw [show (applyEvent b ButtonEvent.release)._current_state = "hover" by
            simp [applyEvent, ImageButton.mouseReleaseEvent,
              ImageButton._apply_state, hd, hm]]
          decide
        | false =>
          rw [show (applyEvent b ButtonEvent.release)._current_state = "normal" by
            simp [applyEvent, ImageButton.mouseReleaseEvent,
              ImageButton._apply_state, hd, hm]]
          decide
    | setStyle style' =>
      right
      cases hd : b._is_disabled with
      | true =>
        rw [show (applyEvent b (ButtonEvent.setStyle style'))._current_state =
            "disabled" by
          simp [applyEvent, ImageButton.set_style, ImageButton._apply_state, hd]]
        decide
      | false =>
        rw [show (applyEvent b (ButtonEvent.setStyle style'))._current_state =
            "normal" by
          simp [applyEvent, ImageButton.set_style, ImageButton._apply_state, hd]]
        decide
    | setDisabled =>
      right
      rw [show (applyEvent b ButtonEvent.setDisabled)._current_state =
          "disabled" by
        simp [applyEvent, ImageButton.set_disabled_state,
          ImageButton.setEnabled, ImageButton._apply_state]]
      decide
  have hfold : ∀ (evs : List ButtonEvent) (b : ImageButton),
      validState b._current_state = true →
      validState ((evs.foldl applyEvent b)._current_state) = true := by
    intro evs
    induction evs with
    | nil => intro b hb; exact hb
    | cons e rest ih =>
      intro b hb
      rw [List.foldl_cons]
      apply ih
      rcases hstep b e with heq | hval
      · rw [heq]; exact hb
      · exact hval
  exact ⟨rfl, hstep, hfold events (ImageButton.init style text) validState_normal⟩

/-- Concrete instantiation of C7 on a short hover-click event sequence. -/
theorem C7_witness :
    validState (([ButtonEvent.enter, ButtonEvent.press true,
      ButtonEvent.release, ButtonEvent.setDisabled].foldl applyEvent
        (ImageButton.init "default" "1"))._current_state) = true :=
  (C7_button_state_universe "default" "1"
    [ButtonEvent.enter, ButtonEvent.press true,
      ButtonEvent.release, ButtonEvent.setDisabled]).2.2

/-- One entry of `self.all_buttons` (main.py lines 516-525). -/
structure ButtonInfo where
  button : ImageButton
  category : String
  domain : String
  label : String
  number : Nat
  style : String
  color_base : String
  color_hover : String
deriving Repr, DecidableEq

/-- One entry of the `button_configs` list (main.py lines 468-498). -/
structure ButtonConfig where
  category : String
  domain : String
  label : String
  color_base : String
  color_hover : String
deriving Repr, DecidableEq

/-- Tile counts (main.py lines 92-96). -/
def NB_USER1 : Nat := 6

/-- Tile count for player 2 (main.py line 93). -/
def NB_USER2 : Nat := 6

/-- Malus tile count (main.py line 94). -/
def NB_MALUS : Nat := 2

/-- Bonus tile count (main.py line 95). -/
def NB_BONUS : Nat := 2

/-- Neutral tile count (main.py line 96). -/
def NB_NEUTRE : Nat := 4

/-- The color table (main.py lines 98-116). -/
def COLORS : List (String × String) :=
  [("bg_main", "#2C3E50"), ("bg_panel", "#34495E"), ("text_light", "#ECF0F1"),
   ("border", "#1ABC9C"), ("default_base", "#8E44AD"),
   ("default_hover", "#A569BD"), ("user1_base", "#3498DB"),
   ("user1_hover", "#5DADE2"), ("user2_base", "#E74C3C"),
   ("user2_hover", "#EC7063"), ("malus_base", "#8E44AD"),
   ("malus_hover", "#A569BD"), ("bonus_base", "#F39C12"),
   ("bonus_hover", "#F7DC6F"), ("neutre_base", "#1ABC9C"),
   ("neutre_hover", "#48C9B0"), ("disabled", "#7F8C8D")]

/-- `COLORS[key]` (total because every key used by the code is present). -/
def color (key : String) : String := (COLORS.lookup key).getD ""

/-- The `while len(result) < count: result.extend(domains)` loop of
`fill_domains` (main.py lines 460-461); the fuel equals `count`, which
is enough for any non-empty `domains` and so never runs out where the
code runs the loop. -/
def fill_domains_extend : Nat → List String → Nat → List String → List String
  | 0, _, _, result => result
  | fuel + 1, domains, count, result =>
    if result.length < count then
      fill_domains_extend fuel domains count (result ++ domains)
    else result

/-- `fill_domains` (main.py lines 456-463, textually repeated at lines
627-634): `shuffle` stands for the in-place `random.shuffle` and is an
arbitrary permutation-producing function in the theorems. -/
def fill_domains (shuffle : List String → List String)
    (domains : List String) (count : Nat) : List String :=
  if domains.isEmpty then List.replicate count "???"
  else (shuffle (fill_domains_extend count domains count domains)).take count

/-- The twenty-entry configuration list built identically by
`_create_all_buttons` (main.py lines 452-500) and `_refresh_buttons`
(main.py lines 623-671) before the final shuffle: the filled user1 and
user2 domain tiles followed by the malus, bonus and neutre blocks. -/
def build_button_configs (user1_name user2_name : String)
    (user1_filled user2_filled : List String) : List ButtonConfig :=
  user1_filled.map (fun domain =>
    { category := "user1", domain := domain, label := user1_name,
      color_base := color "user1_base", color_hover := color "user1_hover" }) ++
  user2_filled.map (fun domain =>
    { category := "user2", domain := domain, label := user2_name,
      color_base := color "user2_base", color_hover := color "user2_hover" }) ++
  List.replicate NB_MALUS
    { category := "malus", domain := "malus", label := "MALUS",
      color_base := color "malus_base", color_hover := color "malus_hover" } ++
  List.replicate NB_BONUS
    { category := "bonus", domain := "bonus", label := "BONUS",
      color_base := color "bonus_base", color_hover := color "bonus_hover" } ++
  List.replicate NB_NEUTRE
    { category := "neutre", domain := "neutre", label := "NEUTRE",
      color_base := color "neutre_base", color_hover := color "neutre_hover" }

/-- The full configuration construction of `_create_all_buttons` and
`_refresh_buttons` including both `random.shuffle` sites: fill the user
domain lists, concatenate the five blocks, shuffle the result. -/
def button_configs (shuffle1 shuffle2 : List String → List String)
    (shuffle_configs : List ButtonConfig → List ButtonConfig)
    (user1_name user2_name : String)
    (user1_domains user2_domains : List String) : List ButtonConfig :=
  shuffle_configs (build_button_configs user1_name user2_name
    (fill_domains shuffle1 user1_domains NB_USER1)
    (fill_domains shuffle2 user2_domains NB_USER2))

/-- The extension loop reaches the requested length when given enough
fuel. -/
theorem fill_domains_extend_length (domains : List String) :
    ∀ (fuel count : Nat) (result : List String),
      count ≤ result.length + fuel * domains.length →
      count ≤ (fill_domains_extend fuel domains count result).length := by
  intro fuel
  induction fuel with
  | zero => intro count result h; simpa using h
  | succ n ih =>
    intro count result h
    rw [fill_domains_extend]
    by_cases hlt : result.length < count
    · rw [if_pos hlt]
      apply ih
      rw [List.length_append]
      rw [Nat.succ_mul] at h
      omega
    · rw [if_neg hlt]
      omega

/-- `fill_domains` returns exactly `count` entries. -/
theorem fill_domains_length (shuffle : List String → List String)
    (hs : ∀ l : List String, List.Perm (shuffle l) l)
    (domains : List String) (count : Nat) :
    (fill_domains shuffle domains count).length = count := by
  rw [fill_domains]
  by_cases hd : domains.isEmpty = true
  · rw [if_pos hd]
    exact List.length_replicate _ _
  · rw [if_neg hd]
    rw [List.length_take]
    have hdlen : 1 ≤ domains.length := by
      cases domains with
      | nil => simp at hd
      | cons a t => simp
    have hext : count ≤ (fill_domains_extend count domains count domains).length := by
      apply fill_domains_extend_length
      have h1 : count * 1 ≤ count * domains.length :=
        Nat.mul_le_mul_left count hdlen
      rw [Nat.mul_one] at h1
      omega
    have hperm := (hs (fill_domains_extend count domains count domains)).length_eq
    omega

/-- Mapping a constructor whose image always satisfies the predicate. -/
theorem countP_map_all_true {α β : Type} (p : β → Bool) (f : α → β)
    (l : List α) (h : ∀ a, p (f a) = true) : (l.map f).countP p = l.length := by
  induction l with
  | nil => rfl
  | cons a t ih =>
    rw [List.map_cons, List.countP_cons, ih, h a, if_pos rfl, List.length_cons]

/-- Mapping a constructor whose image never satisfies the predicate. -/
theorem countP_map_all_false {α β : Type} (p : β → Bool) (f : α → β)
    (l : List α) (h : ∀ a, p (f a) = false) : (l.map f).countP p = 0 := by
  induction l with
  | nil => rfl
  | cons a t ih =>
    rw [List.map_cons, List.countP_cons, ih, h a, if_neg (by decide)]

/-- The configuration list always has exactly twenty entries. -/
theorem button_configs_length (shuffle1 shuffle2 : List String → List String)
    (shuffle_configs : List ButtonConfig → List ButtonConfig)
    (user1_name user2_name : String) (user1_domains user2_domains : List String)
    (hs1 : ∀ l : List String, List.Perm (shuffle1 l) l)
    (hs2 : ∀ l : List String, List.Perm (shuffle2 l) l)
    (hsc : ∀ l : List ButtonConfig, List.Perm (shuffle_configs l) l) :
    (button_configs shuffle1 shuffle2 shuffle_configs user1_name user2_name
      user1_domains user2_domains).length = 20 := by
  rw [button_configs, (hsc _).length_eq, build_button_configs]
  simp only [List.length_append, List.length_map, List.length_replicate]
  rw [fill_domains_length shuffle1 hs1, fill_domains_length shuffle2 hs2]
  decide

/-- C4. The configuration list built by `_create_all_buttons` and by
`_refresh_buttons` always has exactly twenty entries — six user1 tiles,
six user2 tiles, two malus, two bonus and four neutre tiles — and the
final shuffle preserves these counts. -/
theorem C4_grid_composition (shuffle1 shuffle2 : List String → List String)
    (shuffle_configs : List ButtonConfig → List ButtonConfig)
    (user1_name user2_name : String) (user1_domains user2_domains : List String)
    (hs1 : ∀ l : List String, List.Perm (shuffle1 l) l)
    (hs2 : ∀ l : List String, List.Perm (shuffle2 l) l)
    (hsc : ∀ l : List ButtonConfig, List.Perm (shuffle_configs l) l) :
    (button_configs shuffle1 shuffle2 shuffle_configs user1_name user2_name
      user1_domains user2_domains).length = 20 ∧
    (button_configs shuffle1 shuffle2 shuffle_configs user1_name user2_name
      user1_domains user2_domains).countP
        (fun cfg => cfg.category == "user1") = NB_USER1 ∧
    (button_configs shuffle1 shuffle2 shuffle_configs user1_name user2_name
      user1_domains user2_domains).countP
        (fun cfg => cfg.category == "user2") = NB_USER2 ∧
    (button_configs shuffle1 shuffle2 shuffle_configs user1_name user2_name
      user1_domains user2_domains).countP
        (fun cfg => cfg.category == "malus") = NB_MALUS ∧
    (button_configs shuffle1 shuffle2 shuffle_configs user1_name user2_name
      user1_domains user2_domains).countP
        (fun cfg => cfg.category == "bonus") = NB_BONUS ∧
    (button_configs shuffle1 shuffle2 shuffle_configs user1_name user2_name
      user1_domains user2_domains).countP
        (fun cfg => cfg.category == "neutre") = NB_NEUTRE := by
  refine ⟨button_configs_length shuffle1 shuffle2 shuffle_configs user1_name
    user2_name user1_domains user2_domains hs1 hs2 hsc, ?_, ?_, ?_, ?_, ?_⟩
  · rw [button_configs, (hsc _).countP_eq, build_button_configs]
    simp only [List.countP_append, List.countP_replicate]
    rw [countP_map_all_true _ _ _ (fun a => rfl),
        countP_map_all_false _ _ _ (fun a => rfl),
        fill_domains_length shuffle1 hs1]
    decide
  · rw [button_configs, (hsc _).countP_eq, build_button_configs]
    simp only [List.countP_append, List.countP_replicate]
    rw [countP_map_all_false _ _ _ (fun a => rfl),
        countP_map_all_true _ _ _ (fun a => rfl),
        fill_domains_length shuffle2 hs2]
    decide
  · rw [button_configs, (hsc _).countP_eq, build_button_configs]
    simp only [List.countP_append, List.countP_replicate]
    rw [countP_map_all_false _ _ _ (fun a => rfl),
        countP_map_all_false _ _ _ (fun a => rfl)]
    decide
  · rw [button_configs, (hsc _).countP_eq, build_button_configs]
    simp only [List.countP_append, List.countP_replicate]
    rw [countP_map_all_false _ _ _ (fun a => rfl),
        countP_map_all_false _ _ _ (fun a => rfl)]
    decide
  · rw [button_configs, (hsc _).countP_eq, build_button_configs]
    simp only [List.countP_append, List.countP_replicate]
    rw [countP_map_all_false _ _ _ (fun a => rfl),
        countP_map_all_false _ _ _ (fun a => rfl)]
    decide

/-- Concrete instantiation of C4 with identity shuffles and one domain
per player. -/
theorem C4_witness :
    (button_configs id id id "Joueur 1" "Joueur 2"
      ["culture"] ["sport"]).length = 20 ∧
    (button_configs id id id "Joueur 1" "Joueur 2"
      ["culture"] ["sport"]).countP
        (fun cfg => cfg.category == "user1") = NB_USER1 ∧
    (button_configs id id id "Joueur 1" "Joueur 2"
      ["culture"] ["sport"]).countP
        (fun cfg => cfg.category == "user2") = NB_USER2 ∧
    (button_configs id id id "Joueur 1" "Joueur 2"
      ["culture"] ["sport"]).countP
        (fun cfg => cfg.category == "malus") = NB_MALUS ∧
    (button_configs id id id "Joueur 1" "Joueur 2"
      ["culture"] ["sport"]).countP
        (fun cfg => cfg.category == "bonus") = NB_BONUS ∧
    (button_configs id id id "Joueur 1" "Joueur 2"
      ["culture"] ["sport"]).countP
        (fun cfg => cfg.category == "neutre") = NB_NEUTRE :=
  C4_grid_composition id id id "Joueur 1" "Joueur 2" ["culture"] ["sport"]
    (fun l => List.Perm.refl l) (fun l => List.Perm.refl l)
    (fun l => List.Perm.refl l)

/-- State of `MainWindow` relevant to the tile grid (main.py lines
214-243): the question manager, the tile bookkeeping list, the validated
tile set, the last clicked tile, the domains toggle and the enabled flag
of the validate button. -/
structure MainWindowState where
  question_manager : QuestionManager
  all_buttons : List ButtonInfo
  clicked_buttons : List Nat
  last_clicked_button_index : Option Nat
  show_domains : Bool
  validate_enabled : Bool
deriving Repr, DecidableEq

/-- Embedding of `MainWindow._on_button_click` (main.py lines 558-573):
an already-validated tile is ignored; otherwise the tile is recorded as
last clicked, its style switches to its category and the validate button
is enabled. The handler never touches the question manager. An
out-of-range index (impossible in the application, which wires indices
0..19) leaves the state unchanged where Python would raise. -/
def _on_button_click (w : MainWindowState) (button_index : Nat) :
    MainWindowState :=
  if w.clicked_buttons.contains button_index then w
  else
    match w.all_buttons.get? button_index with
    | none => w
    | some info =>
      { w with
        last_clicked_button_index := some button_index,
        all_buttons := w.all_buttons.set button_index
          { info with button := info.button.set_style info.category },
        validate_enabled := true }

/-- Embedding of `MainWindow._validate_current_question` (main.py lines
575-590): mark the last clicked tile as validated, permanently disable
its button and reset the click tracking. -/
def _validate_current_question (w : MainWindowState) : MainWindowState :=
  match w.last_clicked_button_index with
  | none => w
  | some button_index =>
    match w.all_buttons.get? button_index with
    | none => w
    | some info =>
      { w with
        clicked_buttons := button_index :: w.clicked_buttons,
        all_buttons := w.all_buttons.set button_index
          { info with button := info.button.set_disabled_state },
        last_clicked_button_index := none,
        validate_enabled := false }

/-- The per-tile reset of the `_refresh_buttons` loop (main.py lines
674-689): update the bookkeeping fields from the new configuration, call
`set_style("default")`, renumber the text and call `setEnabled(True)`. -/
def refresh_one (info : ButtonInfo) (idx : Nat) (cfg : ButtonConfig) :
    ButtonInfo :=
  { info with
    category := cfg.category,
    domain := cfg.domain,
    label := cfg.label,
    style := cfg.category,
    color_base := cfg.color_base,
    color_hover := cfg.color_hover,
    button := ((info.button.set_style "default").setText
      (toString (idx + 1))).setEnabled true }

/-- The `for idx, config in enumerate(button_configs)` loop of
`_refresh_buttons` (main.py lines 674-689); in the application both
lists have exactly twenty entries, so the mismatched-length cases are
never reached. -/
def refresh_assign : List ButtonInfo → List ButtonConfig → Nat → List ButtonInfo
  | infos, [], _ => infos
  | [], _ :: _, _ => []
  | info :: infos, cfg :: cfgs, idx =>
    refresh_one info idx cfg :: refresh_assign infos cfgs (idx + 1)

/-- Embedding of `MainWindow._refresh_buttons` (main.py lines 615-689):
clear the validated set, forget the last clicked tile, disable the
validate button, uncheck the domains checkbox, rebuild a shuffled
configuration list from the question manager's domains and reassign it
over the existing buttons. The `setChecked(False)` signal re-runs
`_toggle_domains`, whose per-tile effects are overwritten tile by tile by
the final loop, so only the resulting `show_domains := false` is kept. -/
def _refresh_buttons (shuffle1 shuffle2 : List String → List String)
    (shuffle_configs : List ButtonConfig → List ButtonConfig)
    (user1_name user2_name : String) (w : MainWindowState) : MainWindowState :=
  { w with
    clicked_buttons := [],
    last_clicked_button_index := none,
    validate_enabled := false,
    show_domains := false,
    all_buttons := refresh_assign w.all_buttons
      (button_configs shuffle1 shuffle2 shuffle_configs user1_name user2_name
        (get_domains w.question_manager "user1")
        (get_domains w.question_manager "user2")) 0 }

/-- Pointwise description of the refresh loop on covered indices. -/
theorem refresh_assign_get? :
    ∀ (infos : List ButtonInfo) (cfgs : List ButtonConfig) (start i : Nat)
      (info : ButtonInfo) (cfg : ButtonConfig),
      infos.get? i = some info → cfgs.get? i = some cfg →
      (refresh_assign infos cfgs start).get? i =
        some (refresh_one info (start + i) cfg) := by
  intro infos
  induction infos with
  | nil => intro cfgs start i info cfg h1 _; cases h1
  | cons a t ih =>
    intro cfgs start i info cfg h1 h2
    cases cfgs with
    | nil => cases h2
    | cons c cs =>
      cases i with
      | zero =>
        injection h1 with h1
        injection h2 with h2
        subst h1
        subst h2
        rw [refresh_assign]
        rw [Nat.add_zero]
        rfl
      | succ i =>
        have hrec := ih cs (start + 1) i info cfg h1 h2
        rw [refresh_assign]
        have harith : start + 1 + i = start + (i + 1) := by omega
        rw [harith] at hrec
        exact hrec

/-- C8. The refresh resets every tile (in particular `setEnabled(True)` is
called on each button), yet it never resets `_is_disabled`, so a tile
permanently disabled before the refresh keeps `_is_disabled = true`, and
the `set_style("default")` inside the refresh leaves its visual state
"disabled", not "normal". -/
theorem C8_refresh_preserves_disabled
    (shuffle1 shuffle2 : List String → List String)
    (shuffle_configs : List ButtonConfig → List ButtonConfig)
    (user1_name user2_name : String) (w : MainWindowState) (i : Nat)
    (info : ButtonInfo)
    (hs1 : ∀ l : List String, List.Perm (shuffle1 l) l)
    (hs2 : ∀ l : List String, List.Perm (shuffle2 l) l)
    (hsc : ∀ l : List ButtonConfig, List.Perm (shuffle_configs l) l)
    (hlen : w.all_buttons.length = 20)
    (hget : w.all_buttons.get? i = some info) :
    ∃ info',
      (_refresh_buttons shuffle1 shuffle2 shuffle_configs user1_name user2_name
        w).all_buttons.get? i = some info' ∧
      info'.button.enabled = true ∧
      info'.button._is_disabled = info.button._is_disabled ∧
      info'.button._current_state =
        (if info.button._is_disabled = true then "disabled" else "normal") := by
  have hi : i < 20 := by
    rcases List.get?_eq_some.mp hget with ⟨h, _⟩
    rw [hlen] at h
    exact h
  have hclen : (button_configs shuffle1 shuffle2 shuffle_configs user1_name
      user2_name (get_domains w.question_manager "user1")
      (get_domains w.question_manager "user2")).length = 20 :=
    button_configs_length shuffle1 shuffle2 shuffle_configs user1_name
      user2_name _ _ hs1 hs2 hsc
  cases hcfg : (button_configs shuffle1 shuffle2 shuffle_configs user1_name
      user2_name (get_domains w.question_manager "user1")
      (get_domains w.question_manager "user2")).get? i with
  | none =>
    rw [List.get?_eq_none] at hcfg
    omega
  | some cfg =>
    refine ⟨refresh_one info (0 + i) cfg,
      refresh_assign_get? w.all_buttons _ 0 i info cfg hget hcfg, ?_, ?_, ?_⟩
    · rfl
    · rfl
    · cases hd : info.button._is_disabled with
      | true =>
        simp [refresh_one, ImageButton.setEnabled, ImageButton.setText,
          ImageButton.set_style, ImageButton._apply_state, hd]
      | false =>
        simp [refresh_one, ImageButton.setEnabled, ImageButton.setText,
          ImageButton.set_style, ImageButton._apply_state, hd]

/-- A concrete tile whose button was permanently disabled. -/
def disabled_info : ButtonInfo :=
  { button := (ImageButton.init "default" "1").set_disabled_state,
    category := "user1", domain := "culture", label := "Joueur 1",
    number := 1, style := "user1", color_base := "", color_hover := "" }

/-- A concrete window with twenty permanently disabled tiles over an
empty catalog. -/
def w20 : MainWindowState :=
  { question_manager := ⟨[], []⟩,
    all_buttons := List.replicate 20 disabled_info,
    clicked_buttons := [], last_clicked_button_index := none,
    show_domains := false, validate_enabled := false }

/-- Concrete instantiation of C8: refreshing `w20` re-enables tile 0 but
keeps it permanently disabled with visual state "disabled". -/
theorem C8_witness :
    ∃ info',
      (_refresh_buttons id id id "Joueur 1" "Joueur 2" w20).all_buttons.get? 0 =
        some info' ∧
      info'.button.enabled = true ∧
      info'.button._is_disabled = disabled_info.button._is_disabled ∧
      info'.button._current_state =
        (if disabled_info.button._is_disabled = true then "disabled"
         else "normal") :=
  C8_refresh_preserves_disabled id id id "Joueur 1" "Joueur 2" w20 0
    disabled_info (fun l => List.Perm.refl l) (fun l => List.Perm.refl l)
    (fun l => List.Perm.refl l) (by decide) (by decide)

/-- A concrete fresh tile. -/
def fresh_info : ButtonInfo :=
  { button := ImageButton.init "default" "1",
    category := "user1", domain := "culture", label := "Joueur 1",
    number := 1, style := "user1", color_base := "", color_hover := "" }

/-- A concrete window: one unclicked tile over a bank holding one unused
question. -/
def w1 : MainWindowState :=
  { question_manager := ⟨[("user1", [("culture", ["Q1"])])], []⟩,
    all_buttons := [fresh_info],
    clicked_buttons := [], last_clicked_button_index := none,
    show_domains := false, validate_enabled := false }

/-- C3 refuted at a concrete input: tile 0 is not validated and its
domain has an unused question available, yet the click handler leaves the
question manager — in particular the used set — and every tile text
unchanged: no question is obtained, displayed or marked as used. -/
theorem C3_counterexample :
    w1.clicked_buttons.contains 0 = false ∧
    get_remaining_count w1.question_manager "user1" "culture" ≠ 0 ∧
    (_on_button_click w1 0).question_manager = w1.question_manager ∧
    (_on_button_click w1 0).question_manager.used_questions = [] ∧
    ((_on_button_click w1 0).all_buttons.map (fun info => info.button._text)) =
      w1.all_buttons.map (fun info => info.button._text) := by
  decide

/-- Setting an index to the value it already holds leaves the list
unchanged. -/
theorem set_get?_same {α : Type} :
    ∀ (l : List α) (i : Nat) (a : α), l.get? i = some a → l.set i a = l := by
  intro l
  induction l with
  | nil => intro i a h; cases h
  | cons x t ih =>
    intro i a h
    cases i with
    | zero =>
      injection h with h
      subst h
      rfl
    | succ i =>
      show x :: t.set i a = x :: t
      rw [ih i a h]

/-- C3 (amended). Clicking a not-yet-validated tile does not query the
question bank: `_on_button_click` leaves the question manager and every
tile text unchanged; it records the tile as last clicked, switches the
tile's style to its category and enables the validate button. -/
theorem C3_click_reveals_category (w : MainWindowState) (i : Nat)
    (info : ButtonInfo) (hnc : w.clicked_buttons.contains i = false)
    (hget : w.all_buttons.get? i = some info) :
    (_on_button_click w i).question_manager = w.question_manager ∧
    (_on_button_click w i).last_clicked_button_index = some i ∧
    (_on_button_click w i).validate_enabled = true ∧
    (_on_button_click w i).all_buttons.get? i =
      some { info with button := info.button.set_style info.category } ∧
    ((_on_button_click w i).all_buttons.map (fun bi => bi.button._text)) =
      w.all_buttons.map (fun bi => bi.button._text) := by
  have hi : i < w.all_buttons.length := by
    rcases List.get?_eq_some.mp hget with ⟨h, _⟩
    exact h
  have hstep : _on_button_click w i =
      { w with
        last_clicked_button_index := some i,
        all_buttons := w.all_buttons.set i
          { info with button := info.button.set_style info.category },
        validate_enabled := true } := by
    simp only [_on_button_click, hnc, Bool.false_eq_true, if_false, hget]
  rw [hstep]
  refine ⟨rfl, rfl, rfl, ?_, ?_⟩
  · exact List.get?_set_eq_of_lt _ hi
  · rw [List.map_set]
    exact set_get?_same _ _ _ (by rw [List.get?_map, hget]; rfl)

/-- Concrete instantiation of the amended C3 at window `w1`, tile 0. -/
theorem C3_witness :
    (_on_button_click w1 0).question_manager = w1.question_manager ∧
    (_on_button_click w1 0).last_clicked_button_index = some 0 ∧
    (_on_button_click w1 0).validate_enabled = true ∧
    (_on_button_click w1 0).all_buttons.get? 0 =
      some { fresh_info with
        button := fresh_info.button.set_style fresh_info.category } ∧
    ((_on_button_click w1 0).all_buttons.map (fun bi => bi.button._text)) =
      w1.all_buttons.map (fun bi => bi.button._text) :=
  C3_click_reveals_category w1 0 fresh_info (by decide) (by decide)
